import Mathlib

/-!
Shallow embedding of the MQL grouping engine's requirement-resolution core
(`src/engines/matching/v1.ts` together with the schema files): the data model
(courses, manual fulfillments, selectors, queries, requirements), the
per-selector evaluators, the flatten-mode / single-result query evaluator,
and the requirement resolver.  The only effect in the source is
`crypto.randomUUID()` inside the Placement selector; it is modelled by an
ambient id stream `g : Nat → String` and an explicit counter threaded through
evaluation.  JavaScript `Set` deduplication (SameValueZero on object
identity) is modelled by structural equality on elements.
-/

namespace MQL

/-- Model of `interface Course` (schema/courses/courses.ts). -/
structure Course where
  codes : List String
  tags : List String
  title : String
  credit : Nat
  dist : Option (List String)
  seasons : List String
  season_codes : List String
deriving DecidableEq

/-- Model of `interface ManualFulfillment`: `id` is the generated UUID. -/
structure ManualFulfillment where
  filled : Bool
  id : String
  description : String
deriving DecidableEq

/-- One element of a `CourseList`.  The declared TypeScript element type is
`Course | ManualFulfillment`, but `queryQuery` wraps a whole result list as a
single element (`ok([result.data])`), so at runtime an element can also be a
nested list; the `nested` constructor models that. -/
inductive Elem where
  | course (c : Course)
  | manual (m : ManualFulfillment)
  | nested (l : List Elem)

/-- `CourseList` from the source. -/
abbrev CourseList := List Elem

mutual

def elemBEq : Elem → Elem → Bool
  | .course a, .course b => a == b
  | .manual a, .manual b => a == b
  | .nested a, .nested b => elemListBEq a b
  | _, _ => false

def elemListBEq : List Elem → List Elem → Bool
  | [], [] => true
  | a :: as, b :: bs => elemBEq a b && elemListBEq as bs
  | _, _ => false

end

mutual

theorem elemBEq_iff : ∀ a b : Elem, elemBEq a b = true ↔ a = b
  | .course a, .course b => by
    simp [elemBEq, beq_iff_eq]
  | .course _, .manual _ => by simp [elemBEq]
  | .course _, .nested _ => by simp [elemBEq]
  | .manual _, .course _ => by simp [elemBEq]
  | .manual a, .manual b => by simp [elemBEq, beq_iff_eq]
  | .manual _, .nested _ => by simp [elemBEq]
  | .nested _, .course _ => by simp [elemBEq]
  | .nested _, .manual _ => by simp [elemBEq]
  | .nested a, .nested b => by
    simp only [elemBEq, Elem.nested.injEq]
    exact elemListBEq_iff a b

theorem elemListBEq_iff : ∀ a b : List Elem, elemListBEq a b = true ↔ a = b
  | [], [] => by simp [elemListBEq]
  | [], _ :: _ => by simp [elemListBEq]
  | _ :: _, [] => by simp [elemListBEq]
  | a :: as, b :: bs => by
    simp only [elemListBEq, Bool.and_eq_true, List.cons.injEq]
    exact and_congr (elemBEq_iff a b) (elemListBEq_iff as bs)

end

instance : DecidableEq Elem := fun a b => decidable_of_iff _ (elemBEq_iff a b)

/-- Model of `Result<T, E>` (errors.ts). -/
inductive Result (T : Type) (E : Type) where
  | ok (data : T)
  | err (error : E)
deriving DecidableEq

def Result.isOk {T E : Type} : Result T E → Bool
  | .ok _ => true
  | .err _ => false

def Result.errOf {T E : Type} : Result T E → Option E
  | .ok _ => none
  | .err e => some e

/-- Model of `interface MatchingError` (the optional count fields are never
populated by the matching engine and are omitted). -/
structure MatchingError where
  requirement : String
  message : String
deriving DecidableEq

/-- `Quantity` from schema/mql/mql.ts. -/
inductive Quantity where
  | Single (n : Nat)
  | Many (lo hi : Nat)
deriving DecidableEq

/-- `MQLQueryType` from schema/mql/mql.ts. -/
inductive MQLQueryType where
  | Select
  | Limit
deriving DecidableEq

/-- `interface Class` from schema/mql/mql.ts. -/
structure Class where
  department_id : String
  course_number : Nat
  lab : Bool
deriving DecidableEq

mutual

/-- The `Selector` tagged union from schema/mql/mql.ts, one constructor per
tag. -/
inductive Selector where
  | Class (c : Class)
  | Placement (s : String)
  | Tag (s : String)
  | TagCode (tag code : String)
  | Dist (s : String)
  | DistCode (dist code : String)
  | Range (f t : Class)
  | RangeDist (f t : Class) (dist : String)
  | RangeTag (f t : Class) (tag : String)
  | Query (q : MQLQuery)

/-- `interface MQLQuery`: quantity, type and ordered selector list. -/
inductive MQLQuery where
  | mk (quantity : Quantity) (qtype : MQLQueryType) (selector : List Selector)

end

def MQLQuery.selector : MQLQuery → List Selector
  | .mk _ _ s => s

/-- `interface MQLRequirement`. -/
structure MQLRequirement where
  query : MQLQuery
  description : String
  priority : Nat

/-- `interface MQLQueryFile`. -/
structure MQLQueryFile where
  version : String
  requirements : List MQLRequirement

/-- `interface QueryResult` from v1.ts. -/
structure QueryResult where
  requirement : MQLRequirement
  selectedCourses : CourseList

/-- `interface MatchingEvaluationResult` from v1.ts. -/
structure MatchingEvaluationResult where
  results : List QueryResult
  allSelectedCourses : CourseList

abbrev MatchResult := Result CourseList MatchingError

/-- JavaScript `str.split(' ')`: split on every single space, keeping empty
pieces; the result is never empty. -/
def jsSplitAux (c : Char) : List Char → List Char → List String
  | [], cur => [String.mk cur.reverse]
  | x :: xs, cur =>
    if x = c then String.mk cur.reverse :: jsSplitAux c xs []
    else jsSplitAux c xs (x :: cur)

def jsSplit (s : String) : List String := jsSplitAux ' ' s.data []

/-- JavaScript `str.toLowerCase()` on the character list. -/
def jsToLower (s : String) : String := String.mk (s.data.map Char.toLower)

/-- The ECMAScript WhiteSpace and LineTerminator code points that
`ToNumber` trims from a string. -/
def isJsWhitespace (c : Char) : Bool :=
  c.toNat = 9 || c.toNat = 10 || c.toNat = 11 || c.toNat = 12 || c.toNat = 13 ||
  c.toNat = 32 || c.toNat = 160 || c.toNat = 0x1680 ||
  (0x2000 ≤ c.toNat && c.toNat ≤ 0x200A) ||
  c.toNat = 0x2028 || c.toNat = 0x2029 || c.toNat = 0x202F ||
  c.toNat = 0x205F || c.toNat = 0x3000 || c.toNat = 0xFEFF

/-- A JavaScript number as produced by `Number(string)`: NaN, a signed
infinity, or a finite IEEE-754 binary64 value written exactly as `±m·2^p`
with `m < 2^53` (`m = 0` covers both signed zeroes, which compare equal). -/
inductive JsNum where
  | nan
  | inf (neg : Bool)
  | fin (neg : Bool) (m : Nat) (p : Int)
deriving DecidableEq

def jsNumNeg : JsNum → JsNum
  | .nan => .nan
  | .inf b => .inf (!b)
  | .fin b m p => .fin (!b) m p

def natLog2Aux : Nat → Nat → Nat
  | 0, _ => 0
  | fuel + 1, n => if n ≤ 1 then 0 else natLog2Aux fuel (n / 2) + 1

/-- `⌊log2 n⌋` for `n ≥ 1` (fuel-based so that it evaluates inside the
kernel). -/
def natLog2 (n : Nat) : Nat := natLog2Aux n n

/-- `2^e ≤ n / d` for naturals with `d > 0`, by cross multiplication. -/
def le2pow (e : Int) (n d : Nat) : Bool :=
  if 0 ≤ e then d * 2 ^ e.toNat ≤ n else d ≤ n * 2 ^ e.natAbs

/-- Round the fraction `N / D` (`D > 0`) to the nearest integer, ties to
even. -/
def roundNearestEven (N D : Nat) : Nat :=
  let q := N / D
  let r := N % D
  if 2 * r < D then q else if D < 2 * r then q + 1 else if q % 2 = 0 then q else q + 1

/-- Round the exact non-negative rational `n / d` (`d > 0`) to the nearest
IEEE-754 binary64 value (round to nearest, ties to even), as a non-negative
`JsNum`: the double `m·2^p` with `2^52 ≤ m < 2^53` (or a subnormal
`m·2^(-1074)` with `m ≤ 2^52`, or zero), overflowing to the infinity. -/
def roundPair (n d : Nat) : JsNum :=
  if n = 0 then .fin false 0 0
  else
    let e0 : Int := (natLog2 n : Int) - (natLog2 d : Int)
    let e : Int := if le2pow e0 n d then e0 else e0 - 1
    let p : Int := e - 52
    let N := if 0 ≤ p then n else n * 2 ^ p.natAbs
    let D := if 0 ≤ p then d * 2 ^ p.toNat else d
    let m0 := roundNearestEven N D
    let m := if m0 = 2 ^ 53 then 2 ^ 52 else m0
    let e1 : Int := if m0 = 2 ^ 53 then e + 1 else e
    if 1023 < e1 then .inf false
    else if e1 < -1022 then .fin false (roundNearestEven (n * 2 ^ 1074) d) (-1074)
    else .fin false m (e1 - 52)

def decDigitsVal (ds : List Char) : Nat :=
  ds.foldl (fun a c => a * 10 + (c.toNat - 48)) 0

def radixDigitVal (r : Nat) (c : Char) : Option Nat :=
  let v : Nat :=
    if '0' ≤ c ∧ c ≤ '9' then c.toNat - 48
    else if 'a' ≤ c ∧ c ≤ 'f' then c.toNat - 87
    else if 'A' ≤ c ∧ c ≤ 'F' then c.toNat - 55
    else 99
  if v < r then some v else none

def parseRadixDigits (r : Nat) : List Char → Nat → Option Nat
  | [], acc => some acc
  | c :: cs, acc =>
    match radixDigitVal r c with
    | some v => parseRadixDigits r cs (acc * r + v)
    | none => none

/-- A `0x` / `0o` / `0b` integer literal body: at least one digit of the
radix and nothing else. -/
def parseRadixNum (r : Nat) (cs : List Char) : JsNum :=
  if cs.isEmpty then .nan
  else
    match parseRadixDigits r cs 0 with
    | some v => roundPair v 1
    | none => .nan

/-- The exact decimal value `mant · 10^ex10`, rounded to binary64. -/
def decValue (mant : Nat) (ex10 : Int) : JsNum :=
  if 0 ≤ ex10 then roundPair (mant * 10 ^ ex10.toNat) 1
  else roundPair mant (10 ^ ex10.natAbs)

/-- An exponent part after `e`/`E`: optional sign, then at least one digit
and nothing else; `ds1`/`ds2` are the integer and fraction digits already
read. -/
def parseExponent (ds1 ds2 : List Char) (rest : List Char) : JsNum :=
  let sr : Int × List Char :=
    match rest with
    | '+' :: r => (1, r)
    | '-' :: r => (-1, r)
    | r => (1, r)
  let ds3 := sr.2.takeWhile Char.isDigit
  let rest2 := sr.2.dropWhile Char.isDigit
  if ds3.isEmpty || !rest2.isEmpty then .nan
  else decValue (decDigitsVal (ds1 ++ ds2)) (sr.1 * (decDigitsVal ds3 : Int) - (ds2.length : Int))

/-- `StrUnsignedDecimalLiteral`: `Infinity`, or decimal digits with an
optional fraction and exponent (at least one digit overall, nothing
trailing). -/
def parseUnsignedDec (cs : List Char) : JsNum :=
  if cs = ['I', 'n', 'f', 'i', 'n', 'i', 't', 'y'] then .inf false
  else
    let ds1 := cs.takeWhile Char.isDigit
    match cs.dropWhile Char.isDigit with
    | [] => if ds1.isEmpty then .nan else decValue (decDigitsVal ds1) 0
    | '.' :: rest2 =>
      let ds2 := rest2.takeWhile Char.isDigit
      if ds1.isEmpty && ds2.isEmpty then .nan
      else
        match rest2.dropWhile Char.isDigit with
        | [] => decValue (decDigitsVal (ds1 ++ ds2)) (-(ds2.length : Int))
        | c :: rest4 =>
          if c = 'e' || c = 'E' then parseExponent ds1 ds2 rest4 else .nan
    | c :: rest2 =>
      if (c = 'e' || c = 'E') && !ds1.isEmpty then parseExponent ds1 [] rest2 else .nan

def parseSignedDec (cs : List Char) : JsNum :=
  match cs with
  | '+' :: r => parseUnsignedDec r
  | '-' :: r => jsNumNeg (parseUnsignedDec r)
  | _ => parseUnsignedDec cs

/-- `StrNumericLiteral`: a non-decimal (`0x`/`0o`/`0b`, unsigned) integer
literal, or a signed decimal literal. -/
def parseNumericBody (cs : List Char) : JsNum :=
  match cs with
  | '0' :: c :: rest =>
    if c = 'x' || c = 'X' then parseRadixNum 16 rest
    else if c = 'o' || c = 'O' then parseRadixNum 8 rest
    else if c = 'b' || c = 'B' then parseRadixNum 2 rest
    else parseSignedDec cs
  | _ => parseSignedDec cs

/-- ECMAScript `ToNumber` on a string, i.e. `Number(str)`: trim the JS
whitespace; an empty remainder is `+0`; otherwise the
`StringNumericLiteral` grammar, with the exact value rounded to the nearest
binary64; anything else is NaN. -/
def jsNumber (s : String) : JsNum :=
  let t := ((s.data.dropWhile isJsWhitespace).reverse.dropWhile isJsWhitespace).reverse
  if t.isEmpty then .fin false 0 0 else parseNumericBody t

/-- `±m·2^p ≤ B` for an exact integer `B`, by cross multiplication. -/
def dblLeInt (neg : Bool) (m : Nat) (p : Int) (B : Int) : Bool :=
  let s : Int := if neg then -(m : Int) else (m : Int)
  if 0 ≤ p then s * 2 ^ p.toNat ≤ B else s ≤ B * 2 ^ p.natAbs

/-- `B ≤ ±m·2^p` for an exact integer `B`. -/
def intLeDbl (B : Int) (neg : Bool) (m : Nat) (p : Int) : Bool :=
  let s : Int := if neg then -(m : Int) else (m : Int)
  if 0 ≤ p then B ≤ s * 2 ^ p.toNat else B * 2 ^ p.natAbs ≤ s

/-- The JavaScript test `lo <= num && num <= hi` for validated `u16`
bounds: false for NaN and for either infinity (one side of the conjunction
fails), exact comparison for finite doubles (both signed zeroes compare as
0, as in JS). -/
def jsNumInRange (lo hi : Nat) : JsNum → Bool
  | .nan => false
  | .inf _ => false
  | .fin neg m p => intLeDbl (lo : Int) neg m p && dblLeInt neg m p (hi : Int)

/-- `split(' ')[0]` (the split list is never empty). -/
def headStr (l : List String) : String := l.headD ""

/-- One `Set.add`: JavaScript sets keep the first insertion position and
ignore re-insertions. -/
def addUnique (acc : List Elem) (x : Elem) : List Elem :=
  if x ∈ acc then acc else acc ++ [x]

/-- `String(mql)` on an object. -/
def jsObjectString : String := "[object Object]"

mutual

/-- Rendering of a selector used to model `JSON.stringify` in error
contexts: a fixed computable serialization of the query value. -/
def renderSelector : Selector → String
  | .Class c =>
    "Class(" ++ c.department_id ++ "," ++ toString c.course_number ++ "," ++
      (if c.lab then "true" else "false") ++ ")"
  | .Placement s => "Placement(" ++ s ++ ")"
  | .Tag s => "Tag(" ++ s ++ ")"
  | .TagCode t c => "TagCode(" ++ t ++ "," ++ c ++ ")"
  | .Dist s => "Dist(" ++ s ++ ")"
  | .DistCode d c => "DistCode(" ++ d ++ "," ++ c ++ ")"
  | .Range f t =>
    "Range(" ++ f.department_id ++ toString f.course_number ++ "," ++
      t.department_id ++ toString t.course_number ++ ")"
  | .RangeDist f t d =>
    "RangeDist(" ++ f.department_id ++ toString f.course_number ++ "," ++
      t.department_id ++ toString t.course_number ++ "," ++ d ++ ")"
  | .RangeTag f t tg =>
    "RangeTag(" ++ f.department_id ++ toString f.course_number ++ "," ++
      t.department_id ++ toString t.course_number ++ "," ++ tg ++ ")"
  | .Query q => "Query(" ++ renderQuery q ++ ")"

/-- Model of `JSON.stringify(mql)` in error messages. -/
def renderQuery : MQLQuery → String
  | .mk _ _ sels => "MQLQuery(" ++ renderSelectors sels ++ ")"

def renderSelectors : List Selector → String
  | [] => ""
  | s :: rest => renderSelector s ++ ";" ++ renderSelectors rest

end

/-- `QueryMatcher.queryClass`: format `"DEPT NUM"` and keep the entries whose
`codes` contain that exact string; error when none do.  The selector's `lab`
field is never read. -/
def queryClass (mql : MQLQuery) (s : Class) (courseList : CourseList) : MatchResult :=
  let fmt := s.department_id ++ " " ++ toString s.course_number
  let maybeCourses := courseList.filter fun e =>
    match e with
    | .course c => c.codes.contains fmt
    | _ => false
  if maybeCourses.isEmpty then
    .err ⟨renderQuery mql, fmt ++ " not found in catalog"⟩
  else .ok maybeCourses

/-- `QueryMatcher.queryDist`: keep courses whose lower-cased `dist` list
contains the lower-cased target. -/
def queryDist (mql : MQLQuery) (d : String) (courseList : CourseList) : MatchResult :=
  let dist := jsToLower d
  let maybeCourses := courseList.filter fun e =>
    match e with
    | .course c =>
      match c.dist with
      | some ds => (ds.map jsToLower).contains dist
      | none => false
    | _ => false
  if maybeCourses.isEmpty then
    .err ⟨renderQuery mql, "DIST(" ++ d ++ ") not found in catalog"⟩
  else .ok maybeCourses

/-- The filter of `QueryMatcher.queryDistCode`: a course (carrying a `dist`
list) such that some code's department part equals the given code and the
lower-cased `dist` list contains the lower-cased target. -/
def distCodeFilter (dist dep : String) : Elem → Bool
  | .course c =>
    match c.dist with
    | some ds => c.codes.any (fun cd => headStr (jsSplit cd) == dep) && (ds.map jsToLower).contains dist
    | none => false
  | _ => false

/-- `QueryMatcher.queryDistCode`. -/
def queryDistCode (mql : MQLQuery) (dist code : String) (courseList : CourseList) : MatchResult :=
  let maybeCourses := courseList.filter (distCodeFilter (jsToLower dist) code)
  if maybeCourses.isEmpty then
    .err ⟨renderQuery mql, "DIST_DEPT(" ++ dist ++ ", " ++ code ++ ") not found in catalog"⟩
  else .ok maybeCourses

/-- The per-course code scan of `QueryMatcher.queryRange`: walk the codes in
order; a code that does not split into exactly two pieces aborts the scan
with `false` (the course is dropped, remaining codes unexamined); a code in
the right department whose `Number(numStr)` satisfies
`lo <= num && num <= hi` returns `true`; any other code (including one whose
number part reads as NaN) is passed over. -/
def rangeScanCodes (dep : String) (lo hi : Nat) : List String → Bool
  | [] => false
  | code :: rest =>
    match jsSplit code with
    | [d, numStr] =>
      if d ≠ dep then rangeScanCodes dep lo hi rest
      else if jsNumInRange lo hi (jsNumber numStr) then true
      else rangeScanCodes dep lo hi rest
    | _ => false

/-- `QueryMatcher.queryRange`. -/
def queryRange (mql : MQLQuery) (f t : Class) (courseList : CourseList) : MatchResult :=
  if f.department_id ≠ t.department_id then
    .err ⟨jsObjectString,
      "RANGE on different department IDs: " ++ f.department_id ++ " != " ++ t.department_id⟩
  else
    let maybeCourses := courseList.filter fun e =>
      match e with
      | .course c => rangeScanCodes f.department_id f.course_number t.course_number c.codes
      | _ => false
    if maybeCourses.isEmpty then
      .err ⟨renderQuery mql,
        "RANGE(" ++ f.department_id ++ toString f.course_number ++ ", " ++
          t.department_id ++ toString t.course_number ++ ") not found in catalog"⟩
    else .ok maybeCourses

/-- `QueryMatcher.queryTag`: keep courses whose `tags` contain the target
exactly. -/
def queryTag (mql : MQLQuery) (tag : String) (courseList : CourseList) : MatchResult :=
  let maybeCourses := courseList.filter fun e =>
    match e with
    | .course c => c.tags.contains tag
    | _ => false
  if maybeCourses.isEmpty then
    .err ⟨renderQuery mql, "TAG(" ++ tag ++ ") not found in catalog"⟩
  else .ok maybeCourses

/-- The filter of `QueryMatcher.queryTagCode`. -/
def tagCodeFilter (tag dep : String) : Elem → Bool
  | .course c => c.codes.any (fun cd => headStr (jsSplit cd) == dep) && c.tags.contains tag
  | _ => false

/-- `QueryMatcher.queryTagCode`. -/
def queryTagCode (mql : MQLQuery) (tag code : String) (courseList : CourseList) : MatchResult :=
  let maybeCourses := courseList.filter (tagCodeFilter tag code)
  if maybeCourses.isEmpty then
    .err ⟨renderQuery mql, "TAG_DEPT(" ++ tag ++ ", " ++ code ++ ") not found in catalog"⟩
  else .ok maybeCourses

/-- `QueryMatcher.queryPlacement`: synthesize one unfilled
`ManualFulfillment` whose id is drawn from the ambient id stream (the model
of `crypto.randomUUID()`); the counter advances. -/
def queryPlacement (g : Nat → String) (descr : String) (k : Nat) : MatchResult × Nat :=
  (.ok [.manual ⟨false, g k, descr⟩], k + 1)

mutual

/-- One step of the selector vtable dispatch of `QueryMatcher`: evaluate a
single selector against the catalog.  `mql` is the enclosing query, used (as
in the source) only for error context.  The structural `'Tag' in selector`
guards of the source are subsumed by constructor dispatch.  The `Query` case
is `queryQuery`: it runs the nested query in flatten mode and wraps the whole
resulting collection as one nested element. -/
def evalSelector (g : Nat → String) (courseList : CourseList) (mql : MQLQuery)
    (s : Selector) (k : Nat) : MatchResult × Nat :=
  match s with
  | .Class c => (queryClass mql c courseList, k)
  | .Placement descr => queryPlacement g descr k
  | .Tag t => (queryTag mql t courseList, k)
  | .TagCode tag code => (queryTagCode mql tag code courseList, k)
  | .Dist d => (queryDist mql d courseList, k)
  | .DistCode dist code => (queryDistCode mql dist code courseList, k)
  | .Range f t => (queryRange mql f t courseList, k)
  | .RangeDist _ _ _ => (.err ⟨jsObjectString, "queryRangeDist: unimplemented"⟩, k)
  | .RangeTag _ _ _ => (.err ⟨jsObjectString, "queryRangeTag: unimplemented"⟩, k)
  | .Query (.mk qt ty sels) =>
    match evalSelectors g courseList (.mk qt ty sels) sels [] k with
    | (.ok data, k') => (.ok [.nested data], k')
    | (.err e, k') => (.err e, k')

/-- The selector loop of `QueryMatcher.matchFlatten`: `acc` is the contents
of the `flattened` set in insertion order; the first selector error is
returned as is. -/
def evalSelectors (g : Nat → String) (courseList : CourseList) (mql : MQLQuery)
    (sels : List Selector) (acc : List Elem) (k : Nat) : MatchResult × Nat :=
  match sels with
  | [] => (.ok acc, k)
  | s :: rest =>
    match evalSelector g courseList mql s k with
    | (.ok data, k') => evalSelectors g courseList mql rest (data.foldl addUnique acc) k'
    | (.err e, k') => (.err e, k')

end

/-- `QueryMatcher.matchFlatten`: evaluate every selector in list order,
short-circuiting on the first error, and union the matched elements into one
deduplicated ordered collection. -/
def matchFlatten (g : Nat → String) (courseList : CourseList) (q : MQLQuery)
    (k : Nat) : MatchResult × Nat :=
  evalSelectors g courseList q q.selector [] k

/-- `QueryMatcher.matchTop`: single-result mode, requiring exactly one
selector and returning its result verbatim. -/
def matchTop (g : Nat → String) (courseList : CourseList) (q : MQLQuery)
    (k : Nat) : MatchResult × Nat :=
  match q.selector with
  | [s] => evalSelector g courseList q s k
  | _ => (.err ⟨"MQL structure", "top level MQL should have one query"⟩, k)

/-- `QueryMatcher.match`: dispatch on the `limitOne` flag (default `false`
in the source, so callers that omit it get flatten mode). -/
def queryMatcherMatch (g : Nat → String) (courseList : CourseList) (q : MQLQuery)
    (limitOne : Bool) (k : Nat) : MatchResult × Nat :=
  if limitOne then matchTop g courseList q k else matchFlatten g courseList q k

/-- Model of the JavaScript stable sort
`[...requirements].sort((a, b) => b.priority - a.priority)`: the stable sort
descending by priority (a stable sort under a total preorder is unique, so
insertion sort is extensionally the ECMAScript sort). -/
def sortReqs (l : List MQLRequirement) : List MQLRequirement :=
  List.insertionSort (fun a b => b.priority ≤ a.priority) l

/-- The requirement loop of `MQLMatcher.match`: `errs`, `results` and `used`
are the `errors`, `results` and `usedCourses` accumulators. -/
def matchLoop (g : Nat → String) (courseList : CourseList) :
    List MQLRequirement → List MatchingError → List QueryResult → List Elem → Nat →
      List MatchingError × List QueryResult × List Elem × Nat
  | [], errs, results, used, k => (errs, results, used, k)
  | r :: rest, errs, results, used, k =>
    match matchFlatten g courseList r.query k with
    | (.ok data, k') =>
      matchLoop g courseList rest errs (results ++ [⟨r, data⟩]) (data.foldl addUnique used) k'
    | (.err e, k') => matchLoop g courseList rest (errs ++ [e]) results used k'

/-- `MQLMatcher.match`: sort requirements by priority descending (stable),
evaluate each query in flatten mode, collect errors, and return either the
aggregate result or the full error list. -/
def mqlMatch (g : Nat → String) (courseList : CourseList) (file : MQLQueryFile)
    (k : Nat) : Result MatchingEvaluationResult (List MatchingError) × Nat :=
  match matchLoop g courseList (sortReqs file.requirements) [] [] [] k with
  | (errs, results, used, k') =>
    if errs.isEmpty then (.ok ⟨results, used⟩, k') else (.err errs, k')

/-- `matchCourses`, the public convenience entry point. -/
def matchCourses (g : Nat → String) (courseList : CourseList) (file : MQLQueryFile)
    (k : Nat) : Result MatchingEvaluationResult (List MatchingError) × Nat :=
  mqlMatch g courseList file k

/-! ### Helper lemmas -/

theorem mem_addUnique {acc : List Elem} {x e : Elem} :
    e ∈ addUnique acc x ↔ e ∈ acc ∨ e = x := by
  unfold addUnique
  split
  · rename_i hx
    constructor
    · exact Or.inl
    · rintro (h | rfl)
      · exact h
      · exact hx
  · simp [List.mem_append]

theorem mem_foldl_addUnique (l : List Elem) :
    ∀ acc e, e ∈ l.foldl addUnique acc ↔ e ∈ acc ∨ e ∈ l := by
  induction l with
  | nil => simp
  | cons x xs ih =>
    intro acc e
    simp only [List.foldl_cons, ih, mem_addUnique, List.mem_cons]
    tauto

theorem evalSelectors_append_ok (g : Nat → String) (cl : CourseList) (mql : MQLQuery)
    (l1 l2 : List Selector) :
    ∀ acc k acc' k', evalSelectors g cl mql l1 acc k = (.ok acc', k') →
      evalSelectors g cl mql (l1 ++ l2) acc k = evalSelectors g cl mql l2 acc' k' := by
  induction l1 with
  | nil =>
    intro acc k acc' k' h
    simp only [evalSelectors, Prod.mk.injEq, Result.ok.injEq] at h
    simp [h.1, h.2]
  | cons s rest ih =>
    intro acc k acc' k' h
    simp only [List.cons_append, evalSelectors] at h ⊢
    rcases hs : evalSelector g cl mql s k with ⟨r, k1⟩
    rw [hs] at h
    cases r with
    | ok data => exact ih _ _ _ _ h
    | err e => simp at h

theorem evalSelectors_append_err (g : Nat → String) (cl : CourseList) (mql : MQLQuery)
    (l1 l2 : List Selector) :
    ∀ acc k e k', evalSelectors g cl mql l1 acc k = (.err e, k') →
      evalSelectors g cl mql (l1 ++ l2) acc k = (.err e, k') := by
  induction l1 with
  | nil =>
    intro acc k e k' h
    simp [evalSelectors] at h
  | cons s rest ih =>
    intro acc k e k' h
    simp only [List.cons_append, evalSelectors] at h ⊢
    rcases hs : evalSelector g cl mql s k with ⟨r, k1⟩
    rw [hs] at h
    cases r with
    | ok data => exact ih _ _ _ _ h
    | err e1 => exact h

mutual

/-- The success verdict and (if any) the error value of a selector
evaluation do not depend on the id stream or the counter: only the data of
synthesized fulfillments does. -/
theorem evalSelector_errOf_irrel : ∀ (s : Selector) (cl : CourseList) (mql : MQLQuery)
    (g : Nat → String) (k : Nat) (g' : Nat → String) (k' : Nat),
    ((evalSelector g cl mql s k).1).errOf = ((evalSelector g' cl mql s k').1).errOf
  | .Class _ => fun _ _ _ _ _ _ => rfl
  | .Placement _ => fun _ _ _ _ _ _ => rfl
  | .Tag _ => fun _ _ _ _ _ _ => rfl
  | .TagCode _ _ => fun _ _ _ _ _ _ => rfl
  | .Dist _ => fun _ _ _ _ _ _ => rfl
  | .DistCode _ _ => fun _ _ _ _ _ _ => rfl
  | .Range _ _ => fun _ _ _ _ _ _ => rfl
  | .RangeDist _ _ _ => fun _ _ _ _ _ _ => rfl
  | .RangeTag _ _ _ => fun _ _ _ _ _ _ => rfl
  | .Query (.mk qt ty sels) => fun cl _ g k g' k' => by
    have h := evalSelectors_errOf_irrel sels cl (.mk qt ty sels) [] [] g k g' k'
    simp only [evalSelector]
    rcases hA : evalSelectors g cl (.mk qt ty sels) sels [] k with ⟨rA, kA⟩
    rcases hB : evalSelectors g' cl (.mk qt ty sels) sels [] k' with ⟨rB, kB⟩
    rw [hA, hB] at h
    cases rA <;> cases rB <;> simp_all [Result.errOf]

theorem evalSelectors_errOf_irrel : ∀ (sels : List Selector) (cl : CourseList)
    (mql : MQLQuery) (acc acc' : List Elem) (g : Nat → String) (k : Nat)
    (g' : Nat → String) (k' : Nat),
    ((evalSelectors g cl mql sels acc k).1).errOf =
      ((evalSelectors g' cl mql sels acc' k').1).errOf
  | [] => fun _ _ _ _ _ _ _ _ => rfl
  | s :: rest => fun cl mql acc acc' g k g' k' => by
    have h := evalSelector_errOf_irrel s cl mql g k g' k'
    simp only [evalSelectors]
    rcases hA : evalSelector g cl mql s k with ⟨rA, kA⟩
    rcases hB : evalSelector g' cl mql s k' with ⟨rB, kB⟩
    rw [hA, hB] at h
    cases rA with
    | ok dataA =>
      cases rB with
      | ok dataB =>
        exact evalSelectors_errOf_irrel rest cl mql _ _ g kA g' kB
      | err eB => simp [Result.errOf] at h
    | err eA =>
      cases rB with
      | ok dataB => simp [Result.errOf] at h
      | err eB => simpa [Result.errOf] using h

end

mutual

def selHasPlacement : Selector → Bool
  | .Placement _ => true
  | .Query (.mk _ _ sels) => selsHavePlacement sels
  | _ => false

def selsHavePlacement : List Selector → Bool
  | [] => false
  | s :: rest => selHasPlacement s || selsHavePlacement rest

end

def queryHasPlacement (q : MQLQuery) : Bool := selsHavePlacement q.selector

def fileHasPlacement (f : MQLQueryFile) : Bool :=
  f.requirements.any fun r => queryHasPlacement r.query

mutual

/-- A Placement-free selector evaluates to the same result at every id
stream and counter, and consumes no ids. -/
theorem evalSelector_noPlacement_irrel : ∀ (s : Selector), selHasPlacement s = false →
    ∀ (cl : CourseList) (mql : MQLQuery) (g : Nat → String) (k : Nat)
      (g' : Nat → String) (k' : Nat),
    evalSelector g cl mql s k = ((evalSelector g' cl mql s k').1, k)
  | .Class _, _ => fun _ _ _ _ _ _ => rfl
  | .Placement _, h => by simp [selHasPlacement] at h
  | .Tag _, _ => fun _ _ _ _ _ _ => rfl
  | .TagCode _ _, _ => fun _ _ _ _ _ _ => rfl
  | .Dist _, _ => fun _ _ _ _ _ _ => rfl
  | .DistCode _ _, _ => fun _ _ _ _ _ _ => rfl
  | .Range _ _, _ => fun _ _ _ _ _ _ => rfl
  | .RangeDist _ _ _, _ => fun _ _ _ _ _ _ => rfl
  | .RangeTag _ _ _, _ => fun _ _ _ _ _ _ => rfl
  | .Query (.mk qt ty sels), h => fun cl _ g k g' k' => by
    have hsels : selsHavePlacement sels = false := by
      simpa [selHasPlacement] using h
    have h2 := evalSelectors_noPlacement_irrel sels hsels cl (.mk qt ty sels) [] g k g' k'
    simp only [evalSelector]
    rw [h2]
    rcases evalSelectors g' cl (.mk qt ty sels) sels [] k' with ⟨rB, kB⟩
    cases rB <;> simp

theorem evalSelectors_noPlacement_irrel : ∀ (sels : List Selector),
    selsHavePlacement sels = false →
    ∀ (cl : CourseList) (mql : MQLQuery) (acc : List Elem) (g : Nat → String)
      (k : Nat) (g' : Nat → String) (k' : Nat),
    evalSelectors g cl mql sels acc k = ((evalSelectors g' cl mql sels acc k').1, k)
  | [], _ => fun _ _ _ _ _ _ _ => rfl
  | s :: rest, h => fun cl mql acc g k g' k' => by
    have hs : selHasPlacement s = false := by
      simp [selsHavePlacement] at h; exact h.1
    have hrest : selsHavePlacement rest = false := by
      simp [selsHavePlacement] at h; exact h.2
    have h1 := evalSelector_noPlacement_irrel s hs cl mql g k g' k'
    simp only [evalSelectors]
    rw [h1]
    rcases evalSelector g' cl mql s k' with ⟨rB, kB⟩
    cases rB with
    | ok dataB =>
      simp only
      exact evalSelectors_noPlacement_irrel rest hrest cl mql (dataB.foldl addUnique acc) g k g' kB
    | err eB => simp

end

/-- Canonical (stream-independent) verdict of a flatten-mode evaluation:
`none` means success, `some e` the error. -/
def evalVerdict (cl : CourseList) (q : MQLQuery) : Option MatchingError :=
  ((matchFlatten (fun _ => "") cl q 0).1).errOf

theorem matchFlatten_errOf (g : Nat → String) (cl : CourseList) (q : MQLQuery) (k : Nat) :
    ((matchFlatten g cl q k).1).errOf = evalVerdict cl q := by
  unfold evalVerdict matchFlatten
  exact evalSelectors_errOf_irrel q.selector cl q [] [] g k (fun _ => "") 0

theorem matchLoop_errs (g : Nat → String) (cl : CourseList) :
    ∀ (l : List MQLRequirement) (errs : List MatchingError) (results : List QueryResult)
      (used : List Elem) (k : Nat),
    (matchLoop g cl l errs results used k).1 =
      errs ++ l.filterMap fun r => evalVerdict cl r.query := by
  intro l
  induction l with
  | nil => intro errs results used k; simp [matchLoop]
  | cons r rest ih =>
    intro errs results used k
    have hv := matchFlatten_errOf g cl r.query k
    simp only [matchLoop]
    rcases h : matchFlatten g cl r.query k with ⟨res, k'⟩
    rw [h] at hv
    cases res with
    | ok data =>
      simp only [Result.errOf] at hv
      simp [List.filterMap_cons, ← hv, ih]
    | err e =>
      simp only [Result.errOf] at hv
      simp [List.filterMap_cons, ← hv, ih, List.append_assoc]

theorem matchLoop_results (g : Nat → String) (cl : CourseList) :
    ∀ (l : List MQLRequirement), (∀ r ∈ l, evalVerdict cl r.query = none) →
    ∀ (errs : List MatchingError) (results : List QueryResult) (used : List Elem) (k : Nat),
    ((matchLoop g cl l errs results used k).2.1).map (fun qr => qr.requirement) =
      results.map (fun qr => qr.requirement) ++ l := by
  intro l
  induction l with
  | nil => intro _ errs results used k; simp [matchLoop]
  | cons r rest ih =>
    intro hall errs results used k
    have hv := matchFlatten_errOf g cl r.query k
    rw [hall r (by simp)] at hv
    simp only [matchLoop]
    rcases h : matchFlatten g cl r.query k with ⟨res, k'⟩
    rw [h] at hv
    cases res with
    | ok data =>
      rw [ih (fun x hx => hall x (by simp [hx]))]
      simp
    | err e => simp [Result.errOf] at hv

/-- Stability of the priority sort: inserting an element never disturbs the
relative order of equal-priority elements. -/
theorem filter_orderedInsert (p : Nat) (x : MQLRequirement) :
    ∀ l : List MQLRequirement,
    (List.orderedInsert (fun a b => b.priority ≤ a.priority) x l).filter
        (fun r => r.priority == p) =
      if x.priority = p then x :: l.filter (fun r => r.priority == p)
      else l.filter (fun r => r.priority == p) := by
  intro l
  induction l with
  | nil =>
    by_cases hx : x.priority = p <;>
      simp [List.orderedInsert, List.filter_cons, beq_iff_eq, hx]
  | cons b bs ih =>
    simp only [List.orderedInsert]
    by_cases hinsert : b.priority ≤ x.priority
    · rw [if_pos hinsert]
      by_cases hx : x.priority = p <;>
        simp [List.filter_cons, beq_iff_eq, hx]
    · rw [if_neg hinsert]
      simp only [List.filter_cons, ih]
      by_cases hx : x.priority = p
      · have hb : ¬ b.priority = p := by omega
        simp [beq_iff_eq, hx, hb]
      · simp [beq_iff_eq, hx]

theorem filter_sortReqs (p : Nat) :
    ∀ l : List MQLRequirement,
    (sortReqs l).filter (fun r => r.priority == p) =
      l.filter (fun r => r.priority == p) := by
  intro l
  induction l with
  | nil => rfl
  | cons x xs ih =>
    simp only [sortReqs, List.insertionSort] at ih ⊢
    rw [filter_orderedInsert]
    by_cases hx : x.priority = p <;> simp [hx, ih, List.filter_cons]

instance : IsTotal MQLRequirement (fun a b => b.priority ≤ a.priority) :=
  ⟨fun a b => le_total b.priority a.priority⟩

instance : IsTrans MQLRequirement (fun a b => b.priority ≤ a.priority) :=
  ⟨fun _ _ _ hab hbc => le_trans hbc hab⟩

theorem sortReqs_pairwise (l : List MQLRequirement) :
    (sortReqs l).Pairwise fun a b => b.priority ≤ a.priority :=
  List.sorted_insertionSort _ l

theorem mem_sortReqs {l : List MQLRequirement} {r : MQLRequirement} :
    r ∈ sortReqs l ↔ r ∈ l :=
  (List.perm_insertionSort _ l).mem_iff

/-! ### Concrete sample values used by witnesses and counterexamples -/

def gId : Nat → String := fun n => toString n

def gA : Nat → String := fun _ => "a"

def gB : Nat → String := fun _ => "b"

def courseCS201 : Course :=
  ⟨["CS 201"], ["prog"], "Intro", 1, some ["SN"], [], []⟩

def courseMathCS : Course :=
  ⟨["MATH 101", "CS 201"], [], "Cross listed", 1, some ["SN"], [], []⟩

def courseBadCode : Course :=
  ⟨["BADCODE", "CS 201"], [], "Odd codes", 1, none, [], []⟩

def catA : CourseList := [.course courseCS201]

def qEmpty : MQLQuery := .mk (.Single 1) .Select []

def qTagProg : MQLQuery := .mk (.Single 1) .Select [.Tag ("prog")]

def qPlacementAP : MQLQuery := .mk (.Single 1) .Select [.Placement ("AP Calc BC")]

def fTag : MQLQueryFile := ⟨"1.0.0", [⟨qTagProg, "tagged", 5⟩]⟩

def fPl : MQLQueryFile := ⟨"1.0.0", [⟨qPlacementAP, "placement", 1⟩]⟩

def okCourses : Result MatchingEvaluationResult (List MatchingError) → List Elem
  | .ok v => v.allSelectedCourses
  | .err _ => []

/-! ### Claims -/

/-- Claim C9: flatten-mode evaluation of a Query with an empty selector list
returns success with an empty collection (not an error), and this empty
overall result is reachable at the public interface through a requirement
whose query has no selectors. -/
theorem c9_empty_selector_list_succeeds (g : Nat → String) (k : Nat) (cl : CourseList)
    (qt : Quantity) (ty : MQLQueryType) (ver descr : String) (p : Nat) :
    matchFlatten g cl (.mk qt ty []) k = (.ok [], k) ∧
    (mqlMatch g cl ⟨ver, [⟨.mk qt ty [], descr, p⟩]⟩ k).1 =
      .ok ⟨[⟨⟨.mk qt ty [], descr, p⟩, []⟩], []⟩ :=
  ⟨rfl, rfl⟩

/-- Claim C10: `queryClass` never reads the selector's `lab` field — two
Class selectors differing only in `lab` evaluate identically — because the
match compares only the formatted string `department_id ++ " " ++
course_number` against each course's `codes` list. -/
theorem c10_class_ignores_lab (mql : MQLQuery) (dep : String) (num : Nat)
    (lab1 lab2 : Bool) (cl : CourseList) :
    queryClass mql ⟨dep, num, lab1⟩ cl = queryClass mql ⟨dep, num, lab2⟩ cl ∧
    (∀ l, queryClass mql ⟨dep, num, lab1⟩ cl = .ok l →
      ∀ e, e ∈ l ↔ e ∈ cl ∧ ∃ c, e = Elem.course c ∧
        (dep ++ " " ++ toString num) ∈ c.codes) := by
  refine ⟨rfl, ?_⟩
  intro l h e
  simp only [queryClass] at h
  split at h
  · exact absurd h (by simp)
  · rw [Result.ok.injEq] at h
    subst h
    rw [List.mem_filter]
    refine and_congr_right fun _ => ?_
    cases e with
    | course c => simp [List.contains_iff_exists_mem_beq, beq_iff_eq]
    | manual m => simp
    | nested l' => simp

/-- Claim C10 witness. -/
theorem c10_witness :
    Elem.course courseCS201 ∈ ([.course courseCS201] : CourseList) ↔
      Elem.course courseCS201 ∈ catA ∧ ∃ c, Elem.course courseCS201 = Elem.course c ∧
        ("CS" ++ " " ++ toString 201) ∈ c.codes :=
  (c10_class_ignores_lab qEmpty ("CS") 201 true false catA).2
    [.course courseCS201] rfl (Elem.course courseCS201)

/-- Claim C6: evaluating a Query selector runs the nested query in flatten
mode; on success the entire resulting collection is wrapped as a single
nested element of a one-element result, and on failure the nested error is
propagated unchanged. -/
theorem c6_query_selector_wraps (g : Nat → String) (cl : CourseList)
    (mql q : MQLQuery) (k : Nat) :
    (∀ data k', matchFlatten g cl q k = (.ok data, k') →
      evalSelector g cl mql (.Query q) k = (.ok [.nested data], k')) ∧
    (∀ e k', matchFlatten g cl q k = (.err e, k') →
      evalSelector g cl mql (.Query q) k = (.err e, k')) := by
  cases q with
  | mk qt ty sels =>
    constructor
    · intro data k' h
      have h' : evalSelectors g cl (.mk qt ty sels) sels [] k = (.ok data, k') := h
      simp [evalSelector, h']
    · intro e k' h
      have h' : evalSelectors g cl (.mk qt ty sels) sels [] k = (.err e, k') := h
      simp [evalSelector, h']

/-- Claim C6 witness. -/
theorem c6_witness :
    evalSelector gId catA qEmpty (.Query qEmpty) 0 = (.ok [.nested []], 0) :=
  (c6_query_selector_wraps gId catA qEmpty qEmpty 0).1 [] 0 rfl

/-- Claim C7: in flatten mode selectors are evaluated in list order and the
first selector failure short-circuits: the whole evaluation returns exactly
that selector's error, and the selectors after the failing one are never
evaluated (the result and final counter are those of the failing selector,
whatever suffix follows it). -/
theorem c7_flatten_short_circuits (g : Nat → String) (k : Nat) (cl : CourseList)
    (mql : MQLQuery) (pre : List Selector) (bad : Selector) (rest : List Selector)
    (acc1 : List Elem) (k1 : Nat) (e : MatchingError) (k2 : Nat) :
    mql.selector = pre ++ bad :: rest →
    evalSelectors g cl mql pre [] k = (.ok acc1, k1) →
    evalSelector g cl mql bad k1 = (.err e, k2) →
    matchFlatten g cl mql k = (.err e, k2) ∧
      ∀ (rest2 : List Selector) (acc2 : List Elem),
        evalSelectors g cl mql (bad :: rest2) acc2 k1 = (.err e, k2) := by
  intro hsel hpre hbad
  have tail : ∀ (rest2 : List Selector) (acc2 : List Elem),
      evalSelectors g cl mql (bad :: rest2) acc2 k1 = (.err e, k2) := by
    intro rest2 acc2
    simp [evalSelectors, hbad]
  refine ⟨?_, tail⟩
  unfold matchFlatten
  rw [hsel, evalSelectors_append_ok g cl mql pre (bad :: rest) [] k acc1 k1 hpre]
  exact tail rest acc1

/-- Claim C7 witness. -/
theorem c7_witness :
    matchFlatten gId catA
        (.mk (.Single 1) .Select [.RangeTag ⟨"CS", 100, false⟩ ⟨"CS", 300, false⟩ ("th")]) 0 =
      (.err ⟨jsObjectString, "queryRangeTag: unimplemented"⟩, 0) :=
  (c7_flatten_short_circuits gId 0 catA
    (.mk (.Single 1) .Select [.RangeTag ⟨"CS", 100, false⟩ ⟨"CS", 300, false⟩ ("th")])
    [] (.RangeTag ⟨"CS", 100, false⟩ ⟨"CS", 300, false⟩ ("th")) [] [] 0
    ⟨jsObjectString, "queryRangeTag: unimplemented"⟩ 0 rfl rfl rfl).1

/-- Generic shape of the filter-based selector evaluators: success iff some
catalog entry passes the filter. -/
theorem filterQuery_isOk (p : Elem → Bool) (cl : CourseList) (e1 : MatchingError) :
    (if (cl.filter p).isEmpty then Result.err e1 else Result.ok (cl.filter p)).isOk = true ↔
      ∃ e ∈ cl, p e = true := by
  split
  · rename_i h
    rw [List.isEmpty_iff, List.filter_eq_nil_iff] at h
    simp only [Result.isOk, Bool.false_eq_true, false_iff]
    rintro ⟨e, he, hp⟩
    exact h e he hp
  · rename_i h
    rw [List.isEmpty_iff, List.filter_eq_nil_iff] at h
    push_neg at h
    obtain ⟨e, he, hp⟩ := h
    exact iff_of_true rfl ⟨e, he, by simpa using hp⟩

/-- Generic shape of the filter-based selector evaluators: on success the
data is exactly the passing entries. -/
theorem filterQuery_ok_mem (p : Elem → Bool) (cl : CourseList) (e1 : MatchingError)
    (l : CourseList) :
    (if (cl.filter p).isEmpty then Result.err e1 else Result.ok (cl.filter p)) = .ok l →
      ∀ e, e ∈ l ↔ e ∈ cl ∧ p e = true := by
  intro h e
  split at h
  · exact absurd h (by simp)
  · rw [Result.ok.injEq] at h
    subst h
    exact List.mem_filter

theorem distCodeFilter_iff (dist dep : String) (e : Elem) :
    distCodeFilter dist dep e = true ↔ ∃ c, e = Elem.course c ∧
      (∃ cd ∈ c.codes, headStr (jsSplit cd) = dep) ∧
      ∃ ds, c.dist = some ds ∧ dist ∈ ds.map jsToLower := by
  cases e with
  | course c =>
    cases hd : c.dist with
    | none => simp [distCodeFilter, hd]
    | some ds =>
      simp [distCodeFilter, hd, List.any_eq_true, beq_iff_eq,
        List.contains_iff_exists_mem_beq]
  | manual m => simp [distCodeFilter]
  | nested l => simp [distCodeFilter]

theorem tagCodeFilter_iff (tag dep : String) (e : Elem) :
    tagCodeFilter tag dep e = true ↔ ∃ c, e = Elem.course c ∧
      (∃ cd ∈ c.codes, headStr (jsSplit cd) = dep) ∧ tag ∈ c.tags := by
  cases e with
  | course c =>
    simp [tagCodeFilter, List.any_eq_true, beq_iff_eq,
      List.contains_iff_exists_mem_beq]
  | manual m => simp [tagCodeFilter]
  | nested l => simp [tagCodeFilter]

/-- Claim C2 counterexample: with the catalog consisting of the single
course `courseMathCS` (codes `["MATH 101", "CS 201"]`, dist `["SN"]`), the
DistCode selector `(dist "sn", code "CS")` succeeds although no course's
FIRST code has department "CS" — the evaluator accepts a department match on
any code, so the claim's first-code characterization (which would demand an
error here) is false. -/
theorem c2_counterexample :
    (queryDistCode qEmpty ("sn") ("CS") [.course courseMathCS]).isOk = true ∧
    headStr (jsSplit (courseMathCS.codes.headD (""))) ≠ "CS" ∧
    (∀ e ∈ ([.course courseMathCS] : CourseList),
      ¬ ∃ c, e = Elem.course c ∧ headStr (jsSplit (c.codes.headD (""))) = "CS") := by
  refine ⟨by decide, by decide, ?_⟩
  intro e he
  rintro ⟨c, rfl, hc⟩
  rw [List.mem_singleton] at he
  rw [Elem.course.injEq] at he
  subst he
  revert hc
  decide

/-- Claim C2 (amended): DistCode matches exactly the courses SOME of whose
codes' department part equals the given code (not necessarily the first
code) and whose lower-cased dist list contains the lower-cased target;
TagCode matches exactly the courses some of whose codes' department part
equals the given code and whose tags contain the target exactly; each errors
iff no entry qualifies. -/
theorem c2_distcode_tagcode_amended (mql : MQLQuery) (dist code tag : String)
    (cl : CourseList) :
    ((queryDistCode mql dist code cl).isOk = true ↔
      ∃ e ∈ cl, ∃ c, e = Elem.course c ∧
        (∃ cd ∈ c.codes, headStr (jsSplit cd) = code) ∧
        ∃ ds, c.dist = some ds ∧ jsToLower dist ∈ ds.map jsToLower) ∧
    (∀ l, queryDistCode mql dist code cl = .ok l →
      ∀ e, e ∈ l ↔ e ∈ cl ∧ ∃ c, e = Elem.course c ∧
        (∃ cd ∈ c.codes, headStr (jsSplit cd) = code) ∧
        ∃ ds, c.dist = some ds ∧ jsToLower dist ∈ ds.map jsToLower) ∧
    ((queryTagCode mql tag code cl).isOk = true ↔
      ∃ e ∈ cl, ∃ c, e = Elem.course c ∧
        (∃ cd ∈ c.codes, headStr (jsSplit cd) = code) ∧ tag ∈ c.tags) ∧
    (∀ l, queryTagCode mql tag code cl = .ok l →
      ∀ e, e ∈ l ↔ e ∈ cl ∧ ∃ c, e = Elem.course c ∧
        (∃ cd ∈ c.codes, headStr (jsSplit cd) = code) ∧ tag ∈ c.tags) := by
  have hd : ∀ e, distCodeFilter (jsToLower dist) code e = true ↔
      ∃ c, e = Elem.course c ∧ (∃ cd ∈ c.codes, headStr (jsSplit cd) = code) ∧
        ∃ ds, c.dist = some ds ∧ jsToLower dist ∈ ds.map jsToLower :=
    distCodeFilter_iff (jsToLower dist) code
  have ht : ∀ e, tagCodeFilter tag code e = true ↔
      ∃ c, e = Elem.course c ∧ (∃ cd ∈ c.codes, headStr (jsSplit cd) = code) ∧
        tag ∈ c.tags :=
    tagCodeFilter_iff tag code
  refine ⟨?_, ?_, ?_, ?_⟩
  · rw [show (queryDistCode mql dist code cl) =
      (if (cl.filter (distCodeFilter (jsToLower dist) code)).isEmpty then
        Result.err ⟨renderQuery mql,
          "DIST_DEPT(" ++ dist ++ ", " ++ code ++ ") not found in catalog"⟩
      else Result.ok (cl.filter (distCodeFilter (jsToLower dist) code))) from rfl,
      filterQuery_isOk]
    exact exists_congr fun e => and_congr_right fun _ => hd e
  · intro l h e
    rw [filterQuery_ok_mem (distCodeFilter (jsToLower dist) code) cl
      ⟨renderQuery mql, "DIST_DEPT(" ++ dist ++ ", " ++ code ++ ") not found in catalog"⟩
      l h e]
    exact and_congr_right fun _ => hd e
  · rw [show (queryTagCode mql tag code cl) =
      (if (cl.filter (tagCodeFilter tag code)).isEmpty then
        Result.err ⟨renderQuery mql,
          "TAG_DEPT(" ++ tag ++ ", " ++ code ++ ") not found in catalog"⟩
      else Result.ok (cl.filter (tagCodeFilter tag code))) from rfl,
      filterQuery_isOk]
    exact exists_congr fun e => and_congr_right fun _ => ht e
  · intro l h e
    rw [filterQuery_ok_mem (tagCodeFilter tag code) cl
      ⟨renderQuery mql, "TAG_DEPT(" ++ tag ++ ", " ++ code ++ ") not found in catalog"⟩
      l h e]
    exact and_congr_right fun _ => ht e

/-- Claim C2 witness. -/
theorem c2_witness :
    (queryDistCode qEmpty ("sn") ("CS") catA).isOk = true :=
  (c2_distcode_tagcode_amended qEmpty ("sn") ("CS") ("prog") catA).1.mpr
    ⟨.course courseCS201, by decide,
      courseCS201, rfl, ⟨"CS 201", by decide, by decide⟩,
      ⟨["SN"], rfl, by decide⟩⟩

/-- A code string of the parsable shape `"DEPT NUM"`: splitting on spaces
yields exactly two pieces. -/
def codeParses (code : String) : Bool := (jsSplit code).length == 2

/-- A code that satisfies a Range selector: parsable shape, department
equal, and a number part whose `Number` value lies within `[lo, hi]`. -/
def codeSat (dep : String) (lo hi : Nat) (code : String) : Bool :=
  match jsSplit code with
  | [d, numStr] => d == dep && jsNumInRange lo hi (jsNumber numStr)
  | _ => false

/-- The Range per-course scan accepts exactly the courses with a satisfying
code in the longest all-parsable prefix of their code list: an unparsable
code stops the scan, discarding the remaining codes. -/
theorem rangeScanCodes_eq_takeWhile (dep : String) (lo hi : Nat) :
    ∀ codes : List String, rangeScanCodes dep lo hi codes =
      ((codes.takeWhile codeParses).any fun code => codeSat dep lo hi code) := by
  intro codes
  induction codes with
  | nil => rfl
  | cons code rest ih =>
    rcases h : jsSplit code with _ | ⟨d, _ | ⟨numStr, _ | ⟨x, xs⟩⟩⟩
    · have hp : codeParses code = false := by simp [codeParses, h]
      rw [rangeScanCodes, h, List.takeWhile_cons, hp]
      simp
    · have hp : codeParses code = false := by simp [codeParses, h]
      rw [rangeScanCodes, h, List.takeWhile_cons, hp]
      simp
    · have hp : codeParses code = true := by simp [codeParses, h]
      rw [rangeScanCodes, h, List.takeWhile_cons, hp]
      simp only [if_pos rfl, List.any_cons]
      by_cases hd : d = dep
      · rw [if_neg (by simp [hd])]
        by_cases hr : jsNumInRange lo hi (jsNumber numStr) = true
        · have hs : codeSat dep lo hi code = true := by
            simp [codeSat, h, hd, hr]
          simp [hs, hr]
        · have hs : codeSat dep lo hi code = false := by
            simp [codeSat, h, hr]
          rw [if_neg hr]
          simp [hs, ih]
      · rw [if_pos hd]
        have hs : codeSat dep lo hi code = false := by
          simp [codeSat, h, hd]
        simp [hs, ih]
    · have hp : codeParses code = false := by simp [codeParses, h]
      rw [rangeScanCodes, h, List.takeWhile_cons, hp]
      simp

/-- Claim C3 counterexample: the course `courseBadCode` has the unparsable
code `"BADCODE"` followed by the satisfying code `"CS 201"`; the claim says
it matches `Range CS [100, 300]`, but the evaluator drops the course at the
unparsable code and, the catalog being that single course, errors. -/
theorem c3_counterexample :
    (queryRange qEmpty ⟨"CS", 100, false⟩ ⟨"CS", 300, false⟩
      [.course courseBadCode]).isOk = false ∧
    codeParses (courseBadCode.codes.headD ("")) = false ∧
    ("CS 201" ∈ courseBadCode.codes ∧ codeSat ("CS") 100 300 ("CS 201") = true) := by
  decide

/-- Claim C3 (amended): for a Range selector over a single department, a
course matches iff some code in the longest prefix of its code list made of
two-piece `"DEPT NUM"` splits has the right department and a number part
whose JavaScript `Number` value lies within the inclusive bounds — a code
that does not split into two pieces drops that course (its remaining codes
are never examined) but is not fatal to the evaluation, while a number part
reading as NaN merely fails the bounds test; the evaluation errors iff no
entry matches. -/
theorem c3_range_amended (mql : MQLQuery) (f t : Class) (cl : CourseList) :
    f.department_id = t.department_id →
    (∀ codes : List String,
      rangeScanCodes f.department_id f.course_number t.course_number codes =
        ((codes.takeWhile codeParses).any fun code =>
          codeSat f.department_id f.course_number t.course_number code)) ∧
    ((queryRange mql f t cl).isOk = true ↔
      ∃ e ∈ cl, ∃ c, e = Elem.course c ∧
        ((c.codes.takeWhile codeParses).any fun code =>
          codeSat f.department_id f.course_number t.course_number code) = true) ∧
    (∀ l, queryRange mql f t cl = .ok l →
      ∀ e, e ∈ l ↔ e ∈ cl ∧ ∃ c, e = Elem.course c ∧
        ((c.codes.takeWhile codeParses).any fun code =>
          codeSat f.department_id f.course_number t.course_number code) = true) := by
  intro hdep
  have hne : ¬ f.department_id ≠ t.department_id := by simpa using hdep
  have hpred : ∀ e : Elem,
      (match e with
        | Elem.course c =>
          rangeScanCodes f.department_id f.course_number t.course_number c.codes
        | _ => false) = true ↔
      ∃ c, e = Elem.course c ∧
        ((c.codes.takeWhile codeParses).any fun code =>
          codeSat f.department_id f.course_number t.course_number code) = true := by
    intro e
    cases e with
    | course c => simp [rangeScanCodes_eq_takeWhile]
    | manual m => simp
    | nested l => simp
  have hshape : queryRange mql f t cl =
      (if (cl.filter fun e =>
          match e with
          | Elem.course c =>
            rangeScanCodes f.department_id f.course_number t.course_number c.codes
          | _ => false).isEmpty then
        Result.err ⟨renderQuery mql,
          "RANGE(" ++ f.department_id ++ toString f.course_number ++ ", " ++
            t.department_id ++ toString t.course_number ++ ") not found in catalog"⟩
      else Result.ok (cl.filter fun e =>
          match e with
          | Elem.course c =>
            rangeScanCodes f.department_id f.course_number t.course_number c.codes
          | _ => false)) := by
    rw [queryRange, if_neg hne]
  refine ⟨fun codes => rangeScanCodes_eq_takeWhile _ _ _ codes, ?_, ?_⟩
  · rw [hshape, filterQuery_isOk]
    exact exists_congr fun e => and_congr_right fun _ => hpred e
  · intro l h e
    rw [hshape] at h
    rw [filterQuery_ok_mem _ cl _ l h e]
    exact and_congr_right fun _ => hpred e

/-- Claim C3 witness. -/
theorem c3_witness :
    (queryRange qEmpty ⟨"CS", 100, false⟩ ⟨"CS", 300, false⟩ catA).isOk = true :=
  ((c3_range_amended qEmpty ⟨"CS", 100, false⟩ ⟨"CS", 300, false⟩ catA rfl).2.1).mpr
    ⟨.course courseCS201, by decide, courseCS201, rfl, by decide⟩

theorem matchFlatten_noPlacement_irrel (q : MQLQuery) (h : queryHasPlacement q = false)
    (cl : CourseList) (g : Nat → String) (k : Nat) (g' : Nat → String) (k' : Nat) :
    matchFlatten g cl q k = ((matchFlatten g' cl q k').1, k) :=
  evalSelectors_noPlacement_irrel q.selector h cl q [] g k g' k'

theorem matchLoop_noPlacement_irrel :
    ∀ (l : List MQLRequirement), (∀ r ∈ l, queryHasPlacement r.query = false) →
    ∀ (cl : CourseList) (errs : List MatchingError) (results : List QueryResult)
      (used : List Elem) (g : Nat → String) (k : Nat) (g' : Nat → String) (k' : Nat),
    matchLoop g cl l errs results used k =
      ((matchLoop g' cl l errs results used k').1,
       (matchLoop g' cl l errs results used k').2.1,
       (matchLoop g' cl l errs results used k').2.2.1, k) := by
  intro l
  induction l with
  | nil => intro _ cl errs results used g k g' k'; simp [matchLoop]
  | cons r rest ih =>
    intro hall cl errs results used g k g' k'
    have hr := hall r (by simp)
    have hrest : ∀ x ∈ rest, queryHasPlacement x.query = false :=
      fun x hx => hall x (by simp [hx])
    have hf := matchFlatten_noPlacement_irrel r.query hr cl g k g' k'
    simp only [matchLoop]
    rw [hf]
    rcases matchFlatten g' cl r.query k' with ⟨res, kB⟩
    cases res with
    | ok data =>
      exact ih hrest cl errs (results ++ [⟨r, data⟩]) (data.foldl addUnique used) g k g' kB
    | err e =>
      exact ih hrest cl (errs ++ [e]) results used g k g' kB

/-- Claim C4 counterexample: two invocations of `matchCourses` on the
identical catalog and document, differing only in the ambient randomness
that `crypto.randomUUID()` draws from, return different results when the
document contains a Placement selector — the synthesized ManualFulfillment
ids differ. -/
theorem c4_counterexample :
    (matchCourses gA [] fPl 0).1 ≠ (matchCourses gB [] fPl 0).1 := by
  intro h
  have h2 := congrArg okCourses h
  revert h2
  decide

/-- Claim C4 (amended): matching is deterministic up to the generated
ManualFulfillment ids — for a document with no Placement selector anywhere,
the result is identical across invocations whatever ids the generator would
produce, and no ids are consumed. -/
theorem c4_determinism_amended (g g' : Nat → String) (k k' : Nat) (cl : CourseList)
    (f : MQLQueryFile) :
    fileHasPlacement f = false →
    (matchCourses g cl f k).1 = (matchCourses g' cl f k').1 ∧
      (matchCourses g cl f k).2 = k := by
  intro h
  have hall : ∀ r ∈ sortReqs f.requirements, queryHasPlacement r.query = false := by
    intro r hr
    rw [mem_sortReqs] at hr
    simp only [fileHasPlacement, List.any_eq_false, Bool.not_eq_true] at h
    exact h r hr
  have hm := matchLoop_noPlacement_irrel (sortReqs f.requirements) hall cl [] [] [] g k g' k'
  rcases hB : matchLoop g' cl (sortReqs f.requirements) [] [] [] k' with
    ⟨errs, results, used, kB⟩
  rw [hB] at hm
  unfold matchCourses mqlMatch
  rw [hm, hB]
  by_cases he : errs.isEmpty <;> simp [he]

/-- Claim C4 witness. -/
theorem c4_witness :
    (matchCourses gA catA fTag 3).1 = (matchCourses gB catA fTag 7).1 ∧
      (matchCourses gA catA fTag 3).2 = 3 :=
  c4_determinism_amended gA gB 3 7 catA fTag (by decide)

theorem filterQuery_ok_ctx {c : Prop} [Decidable c] (e1 e2 : MatchingError)
    (l data : CourseList) :
    (if c then Result.err e1 else Result.ok l) = .ok data →
    (if c then Result.err e2 else Result.ok l) = .ok data := by
  by_cases h : c <;> simp [h]

/-- A Placement-free selector that evaluates successfully evaluates to the
same data at every context, id stream and counter (only the error side
mentions the enclosing query). -/
theorem evalSelector_ok_data_irrel :
    ∀ (s : Selector), selHasPlacement s = false →
    ∀ (cl : CourseList) (mql mql' : MQLQuery) (g g' : Nat → String) (k k' : Nat)
      (data : List Elem),
    (evalSelector g' cl mql' s k').1 = .ok data →
    evalSelector g cl mql s k = (.ok data, k) := by
  intro s hs cl mql mql' g g' k k' data h
  cases s with
  | Class c =>
    simp only [evalSelector] at h ⊢
    rw [show queryClass mql c cl = .ok data from filterQuery_ok_ctx _ _ _ _ h]
  | Placement d => simp [selHasPlacement] at hs
  | Tag t =>
    simp only [evalSelector] at h ⊢
    rw [show queryTag mql t cl = .ok data from filterQuery_ok_ctx _ _ _ _ h]
  | TagCode tag code =>
    simp only [evalSelector] at h ⊢
    rw [show queryTagCode mql tag code cl = .ok data from filterQuery_ok_ctx _ _ _ _ h]
  | Dist d =>
    simp only [evalSelector] at h ⊢
    rw [show queryDist mql d cl = .ok data from filterQuery_ok_ctx _ _ _ _ h]
  | DistCode dist code =>
    simp only [evalSelector] at h ⊢
    rw [show queryDistCode mql dist code cl = .ok data from filterQuery_ok_ctx _ _ _ _ h]
  | Range f t =>
    simp only [evalSelector] at h ⊢
    revert h
    unfold queryRange
    by_cases hd : f.department_id ≠ t.department_id
    · simp [hd]
    · simp only [if_neg hd]
      intro h
      rw [filterQuery_ok_ctx _ _ _ _ h]
  | RangeDist f t d => simp [evalSelector] at h
  | RangeTag f t tg => simp [evalSelector] at h
  | Query q =>
    cases q with
    | mk qt ty sels =>
      have hsels : selsHavePlacement sels = false := by
        simpa [selHasPlacement] using hs
      have hb := evalSelectors_noPlacement_irrel sels hsels cl (.mk qt ty sels) [] g k g' k'
      simp only [evalSelector] at h ⊢
      rw [hb]
      rcases hE : evalSelectors g' cl (.mk qt ty sels) sels [] k' with ⟨r, kB⟩
      rw [hE] at h
      cases r with
      | ok d =>
        simp only at h ⊢
        rw [Result.ok.injEq] at h
        rw [← h]
      | err e => simp at h

/-- Claim C5 counterexample: the Placement selector always evaluates
successfully, yet flatten-evaluating `[A, A]` with `A = Placement "AP"`
yields a two-element collection (two distinct fresh fulfillments) while
`[A]` yields one — the two deduplicated sets differ, so flatten-mode union
is not idempotent for every pair of successfully evaluating selectors. -/
theorem c5_counterexample :
    matchFlatten gId []
        (.mk (.Single 1) .Select [.Placement ("AP"), .Placement ("AP")]) 0 =
      (.ok [.manual ⟨false, "0", "AP"⟩, .manual ⟨false, "1", "AP"⟩], 2) ∧
    matchFlatten gId [] (.mk (.Single 1) .Select [.Placement ("AP")]) 0 =
      (.ok [.manual ⟨false, "0", "AP"⟩], 1) ∧
    (evalSelector gId []
        (.mk (.Single 1) .Select [.Placement ("AP"), .Placement ("AP")])
        (.Placement ("AP")) 0).1.isOk = true ∧
    Elem.manual ⟨false, "1", "AP"⟩ ∈
      ([.manual ⟨false, "0", "AP"⟩, .manual ⟨false, "1", "AP"⟩] : List Elem) ∧
    Elem.manual ⟨false, "1", "AP"⟩ ∉ ([.manual ⟨false, "0", "AP"⟩] : List Elem) := by
  decide

/-- Claim C5 (amended): for Placement-free selectors `A` and `B` that both
evaluate successfully, flatten-mode evaluation of `[A, B]` and `[B, A]`
yields the same deduplicated set of elements, and `[A, A]` yields the same
set as `[A]`. -/
theorem c5_flatten_union_amended (g : Nat → String) (k : Nat) (cl : CourseList)
    (qt : Quantity) (ty : MQLQueryType) (A B : Selector) :
    selHasPlacement A = false → selHasPlacement B = false →
    ∀ dataA dataB,
    (evalSelector g cl (.mk qt ty [A, B]) A k).1 = .ok dataA →
    (evalSelector g cl (.mk qt ty [A, B]) B k).1 = .ok dataB →
    ∃ lAB lBA lAA lA,
      matchFlatten g cl (.mk qt ty [A, B]) k = (.ok lAB, k) ∧
      matchFlatten g cl (.mk qt ty [B, A]) k = (.ok lBA, k) ∧
      matchFlatten g cl (.mk qt ty [A, A]) k = (.ok lAA, k) ∧
      matchFlatten g cl (.mk qt ty [A]) k = (.ok lA, k) ∧
      (∀ e, e ∈ lAB ↔ e ∈ lBA) ∧ (∀ e, e ∈ lAA ↔ e ∈ lA) := by
  intro hA hB dataA dataB hdA hdB
  have eA : ∀ (mql : MQLQuery) (k0 : Nat), evalSelector g cl mql A k0 = (.ok dataA, k0) :=
    fun mql k0 => evalSelector_ok_data_irrel A hA cl mql _ g g k0 k dataA hdA
  have eB : ∀ (mql : MQLQuery) (k0 : Nat), evalSelector g cl mql B k0 = (.ok dataB, k0) :=
    fun mql k0 => evalSelector_ok_data_irrel B hB cl mql _ g g k0 k dataB hdB
  refine ⟨dataB.foldl addUnique (dataA.foldl addUnique []),
    dataA.foldl addUnique (dataB.foldl addUnique []),
    dataA.foldl addUnique (dataA.foldl addUnique []),
    dataA.foldl addUnique [], ?_, ?_, ?_, ?_, ?_, ?_⟩
  · simp [matchFlatten, MQLQuery.selector, evalSelectors, eA, eB]
  · simp [matchFlatten, MQLQuery.selector, evalSelectors, eA, eB]
  · simp [matchFlatten, MQLQuery.selector, evalSelectors, eA]
  · simp [matchFlatten, MQLQuery.selector, evalSelectors, eA]
  · intro e
    simp only [mem_foldl_addUnique, List.not_mem_nil, false_or]
    tauto
  · intro e
    simp only [mem_foldl_addUnique, List.not_mem_nil, false_or]
    tauto

/-- Claim C5 witness. -/
theorem c5_witness :
    ∃ lAB lBA lAA lA,
      matchFlatten gId catA (.mk (.Single 1) .Select [.Tag ("prog"), .Dist ("sn")]) 0 =
        (.ok lAB, 0) ∧
      matchFlatten gId catA (.mk (.Single 1) .Select [.Dist ("sn"), .Tag ("prog")]) 0 =
        (.ok lBA, 0) ∧
      matchFlatten gId catA (.mk (.Single 1) .Select [.Tag ("prog"), .Tag ("prog")]) 0 =
        (.ok lAA, 0) ∧
      matchFlatten gId catA (.mk (.Single 1) .Select [.Tag ("prog")]) 0 =
        (.ok lA, 0) ∧
      (∀ e, e ∈ lAB ↔ e ∈ lBA) ∧ (∀ e, e ∈ lAA ↔ e ∈ lA) :=
  c5_flatten_union_amended gId 0 catA (.Single 1) .Select (.Tag ("prog")) (.Dist ("sn"))
    rfl rfl [.course courseCS201] [.course courseCS201] rfl rfl

def fTwo : MQLQueryFile :=
  ⟨"1.0.0", [⟨qEmpty, "first", 5⟩, ⟨qTagProg, "second", 5⟩]⟩

/-- Claim C1: the requirement resolver succeeds iff every requirement's
query evaluation succeeds; when at least one fails it keeps evaluating the
rest, collects every failing requirement's error, and returns the full
(non-empty) error list — per-requirement successes are discarded, never a
mix of results and errors. -/
theorem c1_resolver_all_or_nothing (g : Nat → String) (k : Nat) (cl : CourseList)
    (f : MQLQueryFile) :
    ((mqlMatch g cl f k).1.isOk = true ↔
      ∀ r ∈ f.requirements, evalVerdict cl r.query = none) ∧
    (∀ E, (mqlMatch g cl f k).1 = .err E →
      E = (sortReqs f.requirements).filterMap (fun r => evalVerdict cl r.query) ∧
      E ≠ []) := by
  rcases hm : matchLoop g cl (sortReqs f.requirements) [] [] [] k with
    ⟨errs, results, used, k'⟩
  have herrs : errs = (sortReqs f.requirements).filterMap fun r => evalVerdict cl r.query := by
    have h := matchLoop_errs g cl (sortReqs f.requirements) [] [] [] k
    rw [hm] at h
    simpa using h
  have hiff : (errs.isEmpty = true) ↔ ∀ r ∈ f.requirements, evalVerdict cl r.query = none := by
    rw [List.isEmpty_iff, herrs, List.filterMap_eq_nil_iff]
    constructor
    · intro h r hr; exact h r (mem_sortReqs.mpr hr)
    · intro h r hr; exact h r (mem_sortReqs.mp hr)
  have hval : (mqlMatch g cl f k).1 =
      (if errs.isEmpty then Result.ok ⟨results, used⟩ else Result.err errs) := by
    unfold mqlMatch
    rw [hm]
    by_cases he : errs.isEmpty <;> simp [he]
  constructor
  · rw [hval]
    by_cases he : errs.isEmpty
    · rw [if_pos he]
      exact iff_of_true rfl (hiff.mp he)
    · rw [if_neg he]
      simp only [Result.isOk, Bool.false_eq_true, false_iff]
      exact fun hall => he (hiff.mpr hall)
  · intro E hE
    rw [hval] at hE
    by_cases he : errs.isEmpty
    · rw [if_pos he] at hE
      exact absurd hE (by simp)
    · rw [if_neg he] at hE
      rw [Result.err.injEq] at hE
      subst hE
      refine ⟨herrs, fun hnil => he ?_⟩
      rw [hnil]
      rfl

/-- Claim C1 witness. -/
theorem c1_witness : (mqlMatch gId catA fTag 0).1.isOk = true :=
  (c1_resolver_all_or_nothing gId 0 catA fTag).1.mpr (by decide)

/-- Claim C8: on success the results list is exactly the requirements in
stable priority-descending order: priorities are pairwise descending, and
the requirements of any fixed priority appear in their original document
order. -/
theorem c8_priority_sort_stable (g : Nat → String) (k : Nat) (cl : CourseList)
    (f : MQLQueryFile) (res : MatchingEvaluationResult) :
    (mqlMatch g cl f k).1 = .ok res →
    res.results.map (fun qr => qr.requirement) = sortReqs f.requirements ∧
    (sortReqs f.requirements).Pairwise (fun a b => b.priority ≤ a.priority) ∧
    (∀ p, (sortReqs f.requirements).filter (fun r => r.priority == p) =
      f.requirements.filter (fun r => r.priority == p)) := by
  intro hok
  rcases hm : matchLoop g cl (sortReqs f.requirements) [] [] [] k with
    ⟨errs, results, used, k'⟩
  have hval : (mqlMatch g cl f k).1 =
      (if errs.isEmpty then Result.ok ⟨results, used⟩ else Result.err errs) := by
    unfold mqlMatch
    rw [hm]
    by_cases he : errs.isEmpty <;> simp [he]
  rw [hval] at hok
  by_cases he : errs.isEmpty
  · rw [if_pos he] at hok
    rw [Result.ok.injEq] at hok
    have herrs := matchLoop_errs g cl (sortReqs f.requirements) [] [] [] k
    rw [hm] at herrs
    simp only [List.nil_append] at herrs
    have hmt : errs = [] := List.isEmpty_iff.mp he
    have hall : ∀ r ∈ sortReqs f.requirements, evalVerdict cl r.query = none :=
      List.filterMap_eq_nil_iff.mp (by rw [← herrs]; exact hmt)
    have hres := matchLoop_results g cl (sortReqs f.requirements) hall [] [] [] k
    rw [hm] at hres
    simp only [List.map_nil, List.nil_append] at hres
    refine ⟨?_, sortReqs_pairwise f.requirements, fun p => filter_sortReqs p f.requirements⟩
    rw [← hok]
    exact hres
  · rw [if_neg he] at hok
    exact absurd hok (by simp)

/-- Claim C8 witness. -/
theorem c8_witness :
    ({ results := [⟨⟨qEmpty, "first", 5⟩, []⟩,
        ⟨⟨qTagProg, "second", 5⟩, [.course courseCS201]⟩],
       allSelectedCourses := [.course courseCS201] } :
        MatchingEvaluationResult).results.map (fun qr => qr.requirement) =
      sortReqs fTwo.requirements :=
  (c8_priority_sort_stable gId 0 catA fTwo _ rfl).1

end MQL
